import Mathlib

/-!
Verification of the BQL result-table engine (`bql/table/table.go`).

The Go source is translated into executable Lean definitions:

* Go machine integers (`int64`) are modelled as `Int` (no overflow is relevant
  to the claims settled here: sums and counts are never compared against
  overflow boundaries).
* A Go `map[K]V` carried inside a row is modelled as an association list with
  the usual map-assignment (replace-or-append) semantics; a `map[string]bool`
  membership set is modelled as a duplicate-free `List String` queried only by
  membership.  Go map iteration order is unspecified; wherever an iteration
  order is observable in a result (the binding list rebuilt by `DotProduct`)
  the model takes the order as an explicit parameter ranging over all
  duplicate-free enumerations of the key set.
* A Go function returning `error` is modelled with an outcome type whose
  `err` constructor carries the state the mutated receiver is left in (the
  source mutates the table in place); `log.Fatalf` and runtime panics
  (nil dereference, failed interface type assertion, negative slice length)
  are modelled by the distinguished outcome `abort`: the process dies and no
  error is propagated to the caller.
* The external value types (`node.Node`, `predicate.Predicate`, `time.Time`,
  `literal.Literal`) are out of scope for the core and are modelled by the
  capabilities the core uses: a canonical string rendering, and for literals
  additionally a comparable string form and a possibly-failing `int64`
  coercion.
-/

/-- Outcome of a table operation. `err` carries the table state the failed
call leaves behind (the Go code mutates the receiver in place); `abort`
models `log.Fatalf` and runtime panics, which kill the process instead of
returning an error. -/
inductive Res (α : Type) where
  | ok : α → Res α
  | err : α → Res α
  | abort : Res α
deriving DecidableEq

/-- Outcome of an internal helper that returns `(value, error)` without a
mutable receiver; the error payload (a Go `error` value) is dropped because
no caller inspects it. -/
inductive Out (α : Type) where
  | ok : α → Out α
  | err : Out α
  | abort : Out α
deriving DecidableEq

/-- Literal models `triple/literal.Literal` through the capabilities the
table core uses: `repr` is `String()`, `cmp` is `ToComparableString()`, and
`int64` is `Int64()` with a failed coercion modelled as `none`. -/
structure Literal where
  repr : String
  cmp : String
  int64 : Option Int
deriving DecidableEq

/-- Cell mirrors the Go struct: five optional typed pointers, of which at most
one is normally set.  `node.Node`, `predicate.Predicate` and `time.Time`
values are represented by their canonical string renderings, which is the only
capability the table core uses of them. -/
structure Cell where
  S : Option String := none
  N : Option String := none
  P : Option String := none
  L : Option Literal := none
  T : Option String := none
deriving DecidableEq

/-- String rendering of a cell, following the source's sequential nil checks;
an all-nil cell renders as the null sentinel. -/
def Cell.String (c : Cell) : String :=
  match c.S with
  | some s => s
  | none =>
    match c.N with
    | some s => s
    | none =>
      match c.P with
      | some s => s
      | none =>
        match c.L with
        | some l => l.repr
        | none =>
          match c.T with
          | some s => s
          | none => ("<NULL>")

/-- Row models Go's `map[string]*Cell` as an association list; the list order
stands in for the (unspecified) map iteration order. -/
abbrev Row := List (String × Cell)

/-- Map lookup `r[b]`; `none` models the absent key (a nil `*Cell`). -/
def Row.find : Row → String → Option Cell
  | [], _ => none
  | (k1, c1) :: rest, k => if k = k1 then some c1 else Row.find rest k

/-- Map assignment `r[b] = c`: replace the bound cell or add the key. -/
def Row.insertCell : Row → String → Cell → Row
  | [], k, c => [(k, c)]
  | (k1, c1) :: rest, k, c =>
    if k1 = k then (k1, c) :: rest else (k1, c1) :: Row.insertCell rest k c

/-- Key set of a row. -/
def rowKeys (r : Row) : List String := r.map Prod.fst

/-- Table mirrors the Go struct: `bs` is the ordered binding list, `mbs` the
key set of the membership map `map[string]bool`, `data` the row sequence. -/
structure Table where
  bs : List String
  mbs : List String
  data : List Row
deriving DecidableEq

/-- Key set of a Go map built by inserting the elements of `l` in order
(duplicates collapse); the list records first-insertion order. -/
def mkSet (l : List String) : List String :=
  l.foldl (fun m b => if b ∈ m then m else m ++ [b]) []

/-- New returns a fresh table and fails (returns `nil, error`) when the
binding list contains duplicates, detected as `len(m) != len(bs)`. -/
def New (bs : List String) : Option Table :=
  if (mkSet bs).length = bs.length then
    some { bs := bs, mbs := mkSet bs, data := [] }
  else none

/-- AddRow appends a row unless it is empty. -/
def Table.AddRow (t : Table) (r : Row) : Table :=
  if r.length > 0 then { t with data := t.data ++ [r] } else t

/-- AddBindings inserts each new binding into both the membership set and the
ordered list, skipping bindings already present. -/
def Table.AddBindings (t : Table) (bs : List String) : Table :=
  bs.foldl
    (fun acc b =>
      if b ∈ acc.mbs then acc
      else { acc with bs := acc.bs ++ [b], mbs := acc.mbs ++ [b] })
    t

/-- ProjectBindings: a silent no-op on a table with no rows or no bindings;
otherwise it validates every requested binding and either rebuilds the
binding directory from the requested list or fails leaving the table
untouched. -/
def Table.ProjectBindings (t : Table) (bs : List String) : Res Table :=
  if t.data.length = 0 ∨ t.mbs.length = 0 then .ok t
  else if bs.all (fun b => decide (b ∈ t.mbs)) then
    .ok (Table.AddBindings { t with bs := [], mbs := [] } bs)
  else .err t

/-- Bindings accessor. -/
def Table.Bindings (t : Table) : List String := t.bs

/-- equalBindings compares two membership sets. -/
def equalBindings (b1 b2 : List String) : Bool :=
  (b1.length == b2.length) && b1.all (fun k => decide (k ∈ b2))

/-- AppendTable: a nil argument is a no-op; a non-empty receiver requires
equal binding sets; an empty receiver adopts the argument's directory. -/
def Table.AppendTable (t : Table) (t2 : Option Table) : Res Table :=
  match t2 with
  | none => .ok t
  | some u =>
    if t.bs.length > 0 && !(equalBindings t.mbs u.mbs) then .err t
    else if t.bs.length = 0 then
      .ok { bs := u.bs, mbs := u.mbs, data := t.data ++ u.data }
    else .ok { t with data := t.data ++ u.data }

/-- disjointBinding is true when no key of `b1` occurs in `b2`. -/
def disjointBinding (b1 b2 : List String) : Bool :=
  b1.all (fun k => !(decide (k ∈ b2)))

/-- Mixing of the maps of `ms` into a fresh map, later entries overriding. -/
def rowUnionInto (acc om : Row) : Row :=
  om.foldl (fun a kv => Row.insertCell a kv.1 kv.2) acc

/-- MergeRows folds a list of rows into one fresh map. -/
def MergeRows (ms : List Row) : Row := ms.foldl rowUnionInto []

/-- Union of two membership-map key sets, as built by inserting the keys of
both maps into a fresh map. -/
def unionSet (m1 m2 : List String) : List String := mkSet (m1 ++ m2)

/-- DotProduct requires disjoint binding sets and on success replaces the
receiver's directory by the union and the data by the full cross product.
The source rebuilds `t.bs` by ranging over the unordered map `t.mbs`; the
parameter `pi` is that iteration order, ranging over every duplicate-free
enumeration of the union key set. -/
def dotData (t t2 : Table) : List Row :=
  (t.data.map (fun r1 => t2.data.map (fun r2 => MergeRows [r1, r2]))).flatten

/-- DotProduct continued: on success the data is the cross product, outer
rows from the receiver, inner rows from the argument. -/
def Table.DotProduct (t : Table) (t2 : Table) (pi : List String) : Res Table :=
  if !(disjointBinding t.mbs t2.mbs) then .err t
  else .ok { bs := pi, mbs := unionSet t.mbs t2.mbs, data := dotData t t2 }

/-- DeleteRow fails on an out-of-range index. -/
def Table.DeleteRow (t : Table) (i : Int) : Res Table :=
  if i < 0 ∨ (t.data.length : Int) ≤ i then .err t
  else .ok { t with data := t.data.take i.toNat ++ t.data.drop (i.toNat + 1) }

/-- Truncate clears the rows and keeps the bindings. -/
def Table.Truncate (t : Table) : Table := { t with data := [] }

/-- Limit keeps the first `i` rows when the table currently has more than `i`.
The source allocates `make([]Row, i, i)` inside that branch, so a negative
`i` panics on the negative slice length (there is no error return at all):
the model yields `abort` there. -/
def Table.Limit (t : Table) (i : Int) : Res Table :=
  if (t.data.length : Int) > i then
    if i < 0 then .abort
    else .ok { t with data := t.data.take i.toNat }
  else .ok t

/-- Filter keeps the rows on which the predicate is false. -/
def Table.Filter (t : Table) (f : Row → Bool) : Table :=
  { t with data := t.data.filter (fun r => !(f r)) }

/-- One entry of a sort configuration. -/
structure SortEntry where
  Binding : String
  Desc : Bool
deriving DecidableEq

/-- SortConfig is the ordered list of (binding, direction) pairs. -/
abbrev SortConfig := List SortEntry

/-- Go byte-lexicographic comparison of strings, executed over the character
lists (identical to Go's `<` on the ASCII data appearing in this file). -/
def listLt : List Char → List Char → Bool
  | [], [] => false
  | [], _ :: _ => true
  | _ :: _, [] => false
  | a :: as, b :: bs => if a < b then true else if b < a then false else listLt as bs

/-- Comparison `a < b` on strings as Go evaluates it. -/
def strLt (a b : String) : Bool := listLt a.data b.data

/-- Model of `strings.TrimSpace`: drop leading and trailing whitespace. -/
def goTrim (s : String) : String :=
  String.mk (((s.data.dropWhile Char.isWhitespace).reverse.dropWhile Char.isWhitespace).reverse)

/-- stringLess returns -1, 0 or 1 for the trimmed operands, inverted when the
entry is descending. -/
def stringLess (rsi rsj : String) (desc : Bool) : Int :=
  let si := goTrim rsi
  let sj := goTrim rsj
  if (si = ("") ∧ sj = ("")) ∨ si = sj then 0
  else
    let b : Int := if strLt si sj then -1 else 1
    if desc then -b else b

/-- Selection of the rendered pair for one variant: used only when both cells
carry that variant, otherwise the previous selection stands. -/
def pick (a b : Option String) (p : String × String) : String × String :=
  match a, b with
  | some x, some y => (x, y)
  | _, _ => p

/-- rowLess is the recursive multi-key comparator.  A row lacking the binding
named by the current entry hits `log.Fatalf` in the source: the comparison
aborts the whole process, modelled as `abort`. -/
def rowLess (ri rj : Row) (c : SortConfig) : Res Bool :=
  match c with
  | [] => .ok false
  | cfg :: rest =>
    match ri.find cfg.Binding with
    | none => .abort
    | some ci =>
      match rj.find cfg.Binding with
      | none => .abort
      | some cj =>
        let p0 : String × String := ((""), (""))
        let p1 := pick ci.S cj.S p0
        let p2 := pick ci.N cj.N p1
        let p3 := pick ci.P cj.P p2
        let p4 := pick (ci.L.map Literal.cmp) (cj.L.map Literal.cmp) p3
        let p5 := pick ci.T cj.T p4
        let l := stringLess p5.1 p5.2 cfg.Desc
        if l < 0 then .ok true
        else if l > 0 ∨ rest = [] then .ok false
        else rowLess ri rj rest

/-- Insertion of a row into an already-ordered list, one comparator call per
examined element.  Every call is a real `rowLess` invocation: it aborts
exactly when that comparison reaches a configured binding absent from a
compared row, and a binding named by a later entry is reached only on a tie
at all earlier entries.  The comparator's `err` constructor is unreachable
(`rowLess` never returns an error) and is folded into `abort`. -/
def insertRow (cfg : SortConfig) (r : Row) : List Row → Out (List Row)
  | [] => .ok [r]
  | x :: xs =>
    match rowLess x r cfg with
    | .ok false => .ok (r :: x :: xs)
    | .ok true =>
      match insertRow cfg r xs with
      | .ok l => .ok (x :: l)
      | o => o
    | .err _ => .abort
    | .abort => .abort

/-- One comparator-driven sort of the rows, aborting as soon as a performed
comparison aborts.  `sort.Sort` is an unstable comparison sort whose
comparison schedule is unspecified; the model fixes one schedule (sort the
tail, then insert the head).  On rows where no comparison can abort, the
schedule only affects the order of fully tied rows, which callers may not
rely on.  When some row lacks the binding named by the first configured
entry and at least two rows are present, every schedule aborts: every row
takes part in at least one comparison, and any comparison touching the
deficient row aborts already at the first entry. -/
def sortRowsE (cfg : SortConfig) : List Row → Out (List Row)
  | [] => .ok []
  | r :: rest =>
    match sortRowsE cfg rest with
    | .ok l => insertRow cfg r l
    | o => o

/-- Sort sorts the rows in place; a nil configuration is a no-op.  An
aborting comparison calls `log.Fatalf`, killing the process: nothing is
propagated to the caller. -/
def Table.Sort (t : Table) (cfg : SortConfig) : Res Table :=
  match cfg with
  | [] => .ok t
  | _ :: _ =>
    match sortRowsE cfg t.data with
    | .ok l => .ok { t with data := l }
    | _ => .abort

/-- A dynamically typed Go value handed to `Accumulate`: the reduction engine
always passes the row's `*Cell` (possibly a nil pointer). -/
inductive GoValue where
  | cellPtr : Option Cell → GoValue
  | litPtr : Literal → GoValue
deriving DecidableEq

/-- Rendering `fmt.Sprintf` applies to the dynamic value: the `String` method
for a non-nil pointer, the nil marker for a nil `*Cell`. -/
def goFormat : GoValue → String
  | .cellPtr (some c) => c.String
  | .cellPtr none => ("<nil>")
  | .litPtr l => l.repr

/-- The built-in accumulator constructors used through `Reduce`. -/
inductive AccKind where
  | sumInt : Int → AccKind
  | count : AccKind
  | countDistinct : AccKind
deriving DecidableEq

/-- Runtime state of one accumulator instance. -/
inductive AccState where
  | sumInt : Int → Int → AccState
  | count : Int → AccState
  | countDistinct : List String → AccState
deriving DecidableEq

/-- Initial state built by the accumulator constructor. -/
def AccKind.start : AccKind → AccState
  | .sumInt s => .sumInt s s
  | .count => .count 0
  | .countDistinct => .countDistinct []

/-- Reset restores the accumulator's initial state. -/
def AccState.Reset : AccState → AccState
  | .sumInt ini _ => .sumInt ini ini
  | .count _ => .count 0
  | .countDistinct _ => .countDistinct []

/-- Insertion into the count-distinct key set. -/
def cdInsert (st : List String) (s : String) : List String :=
  if s ∈ st then st else st ++ [s]

/-- Accumulate one dynamic value.  The integer-sum accumulator type-asserts
its argument to `*literal.Literal` with the single-result form `v.(*T)`,
which panics (aborts the process) whenever the dynamic type is `*Cell` — and
the reduction engine always passes the row's `*Cell`.  The count accumulator
ignores its argument; the count-distinct accumulator keys its internal set by
the value's rendering and returns the set's cardinality after insertion. -/
def AccState.Accumulate : AccState → GoValue → Out (AccState × Int)
  | .sumInt ini st, v =>
    match v with
    | .litPtr l =>
      match l.int64 with
      | some iv => .ok (.sumInt ini (st + iv), st + iv)
      | none => .err
    | .cellPtr _ => .abort
  | .count st, _ => .ok (.count (st + 1), st + 1)
  | .countDistinct st, v =>
    let st2 := cdInsert st (goFormat v)
    .ok (.countDistinct st2, (st2.length : Int))

/-- Runner feeding a list of values through one accumulator, recording the
value returned by each call (stopping if a call fails, which the built-in
count accumulators never do). -/
def runAcc : AccState → List GoValue → List Int
  | _, [] => []
  | s, v :: rest =>
    match s.Accumulate v with
    | .ok (s2, r) => r :: runAcc s2 rest
    | _ => []

/-- AliasAccPair is (input binding, output binding, optional accumulator). -/
structure AliasAccPair where
  InAlias : String
  OutAlias : String
  Acc : Option AccKind
deriving DecidableEq

/-- Distinct input bindings across the pair list: the key set of the nested
map `toMap` builds. -/
def inKeys (aaps : List AliasAccPair) : List String :=
  mkSet (aaps.map (fun p => p.InAlias))

/-- The pairs `toMap` retains for one input binding: one pair per output
alias, a later duplicate replacing an earlier one. -/
def pairsFor (aaps : List AliasAccPair) (k : String) : List AliasAccPair :=
  (aaps.filter (fun p => p.InAlias == k)).foldl
    (fun acc p => acc.filter (fun q => q.OutAlias != p.OutAlias) ++ [p]) []

/-- All pairs surviving in the nested map. -/
def mapPairs (aaps : List AliasAccPair) : List AliasAccPair :=
  ((inKeys aaps).map (pairsFor aaps)).flatten

/-- Cell wrapping the literal built from an accumulator's integer result;
`literal.DefaultBuilder().Build(literal.Int64, v)` cannot fail on an `int64`
value, so no error case arises. -/
def intLitCell (i : Int) : Cell := { L := some { repr := toString i, cmp := toString i, int64 := some i } }

/-- Folding one accumulator over the rows of a group: reset, then accumulate
the cell at the pair's input binding for every row in order, keeping the
latest returned value. -/
def foldAcc (rng : List Row) (inAlias : String) (k : AccKind) : Out Int :=
  match rng.foldl
      (fun st r =>
        match st with
        | Out.ok sv => sv.1.Accumulate (.cellPtr (r.find inAlias))
        | o => o)
      (Out.ok (k.start.Reset, 0)) with
  | .ok sv => .ok sv.2
  | .err => .err
  | .abort => .abort

/-- fullGroupRangeReduce reduces one contiguous sorted group.  First every
present accumulator is reset and folded over the whole range (first failing
fold decides the outcome); the output row is then assembled from the group's
first row: a pair without accumulator copies the first row's cell under the
output alias, a pair with one wraps the accumulated integer in a fresh
literal cell.  A range reducing to an empty row is an error; an empty range
dereferences the missing first row in the source (out of range), here
`abort` — the caller never produces one. -/
def fullGroupRangeReduce (rng : List Row) (aaps : List AliasAccPair) : Out Row :=
  match rng with
  | [] => .abort
  | r0 :: _ =>
    let phase1 :=
      (mapPairs aaps).foldl
        (fun st p =>
          match st with
          | Out.ok u =>
            match p.Acc with
            | none => Out.ok u
            | some k =>
              match foldAcc rng p.InAlias k with
              | .ok _ => Out.ok u
              | .err => Out.err
              | .abort => Out.abort
          | o => o)
        (Out.ok ())
    match phase1 with
    | .abort => .abort
    | .err => .err
    | .ok _ =>
      let assembled :=
        r0.foldl
          (fun acc kv =>
            match acc with
            | Out.ok nr =>
              (pairsFor aaps kv.1).foldl
                (fun acc2 p =>
                  match acc2 with
                  | Out.ok nr2 =>
                    match p.Acc with
                    | none => Out.ok (Row.insertCell nr2 p.OutAlias kv.2)
                    | some k =>
                      match foldAcc rng p.InAlias k with
                      | .ok v => Out.ok (Row.insertCell nr2 p.OutAlias (intLitCell v))
                      | .err => Out.err
                      | .abort => Out.abort
                  | o => o)
                (Out.ok nr)
            | o => o)
          (Out.ok [])
      match assembled with
      | .ok nr => if nr.length = 0 then .err else .ok nr
      | o => o

/-- Concatenated rendering of the configured cells of one row, the grouping
key.  A missing configured binding makes the source call `String()` on a nil
`*Cell`, a nil dereference panic: `none`. -/
def rowId (cfg : SortConfig) (r : Row) : Option String :=
  cfg.foldl
    (fun acc e =>
      match acc, r.find e.Binding with
      | some s, some c => some (s ++ c.String)
      | _, _ => none)
    (some (""))

/-- The grouping walk of `Reduce`: track the previous key, close a group when
the key changes, reduce it, and reduce the trailing group at the end.  An
empty key re-triggers the first-time branch, exactly as in the source. -/
def reduceGo (all : List Row) (aaps : List AliasAccPair) (cfg : SortConfig) :
    List Row → Nat → String → Nat → List Row → Out (List Row)
  | [], _, _, lastIdx, nd =>
    match fullGroupRangeReduce (all.drop lastIdx) aaps with
    | .ok nr => .ok (nd ++ [nr])
    | .err => .err
    | .abort => .abort
  | r :: rest, idx, last, lastIdx, nd =>
    match rowId cfg r with
    | none => .abort
    | some current =>
      if last = ("") then reduceGo all aaps cfg rest (idx + 1) current idx nd
      else if last = current then reduceGo all aaps cfg rest (idx + 1) last lastIdx nd
      else
        match fullGroupRangeReduce ((all.drop lastIdx).take (idx - lastIdx)) aaps with
        | .ok nr => reduceGo all aaps cfg rest (idx + 1) current idx (nd ++ [nr])
        | .err => .err
        | .abort => .abort

/-- One step list of the directory rebuild at the end of `Reduce`, folding
from an arbitrary starting pair (ordered list, membership set). -/
def reduceBindingsAux (aaps : List AliasAccPair) (p : List String × List String) :
    List String × List String :=
  aaps.foldl
    (fun q aap =>
      if aap.OutAlias ∈ q.2 then q else (q.1 ++ [aap.OutAlias], q.2 ++ [aap.OutAlias]))
    p

/-- The binding directory `Reduce` installs on success: the output aliases in
pair order, de-duplicated through the membership set. -/
def reduceBindings (aaps : List AliasAccPair) : List String × List String :=
  reduceBindingsAux aaps ([], [])

/-- Reduce validates that the pair list covers the table's bindings exactly,
then (unless the table is empty) sorts in place, walks the contiguous groups
reducing each, and finally replaces directory and rows.  A failure after the
sort leaves the already-sorted rows behind. -/
def Table.Reduce (t : Table) (cfg : SortConfig) (aaps : List AliasAccPair) : Res Table :=
  if t.bs.length ≠ (inKeys aaps).length then .err t
  else if !(t.bs.all (fun b => decide (b ∈ inKeys aaps))) then .err t
  else if !((inKeys aaps).all (fun b => decide (b ∈ t.mbs))) then .err t
  else if (inKeys aaps).length ≠ t.bs.length then .err t
  else if t.data.length = 0 then .ok t
  else
    match t.Sort cfg with
    | .err u => .err u
    | .abort => .abort
    | .ok ts =>
      match reduceGo ts.data aaps cfg ts.data 0 ("") 0 [] with
      | .abort => .abort
      | .err => .err ts
      | .ok nd =>
        .ok { bs := (reduceBindings aaps).1, mbs := (reduceBindings aaps).2, data := nd }

/-- The three validation checks of `Reduce` as one predicate. -/
def reduceValid (t : Table) (aaps : List AliasAccPair) : Bool :=
  (t.bs.length == (inKeys aaps).length)
    && t.bs.all (fun b => decide (b ∈ inKeys aaps))
    && (inKeys aaps).all (fun b => decide (b ∈ t.mbs))

/-- The table invariant: the ordered binding list is duplicate-free and the
membership set holds exactly its names. -/
def TableInv (t : Table) : Prop :=
  t.bs.Nodup ∧ (∀ x ∈ t.mbs, x ∈ t.bs) ∧ (∀ x ∈ t.bs, x ∈ t.mbs)

/-- A possible Go map iteration order over the key set `m`: a duplicate-free
enumeration of exactly its keys. -/
def IterOrder (pi m : List String) : Prop :=
  pi.Nodup ∧ (∀ x ∈ pi, x ∈ m) ∧ (∀ x ∈ m, x ∈ pi)

/-- Both cells carry no common variant kind (or carry no value at all). -/
def noSharedKind (ci cj : Cell) : Prop :=
  ¬(ci.S.isSome ∧ cj.S.isSome) ∧ ¬(ci.N.isSome ∧ cj.N.isSome)
    ∧ ¬(ci.P.isSome ∧ cj.P.isSome) ∧ ¬(ci.L.isSome ∧ cj.L.isSome)
    ∧ ¬(ci.T.isSome ∧ cj.T.isSome)

instance (pi m : List String) : Decidable (IterOrder pi m) := by
  unfold IterOrder; infer_instance

instance (t : Table) : Decidable (TableInv t) := by
  unfold TableInv; infer_instance

instance (ci cj : Cell) : Decidable (noSharedKind ci cj) := by
  unfold noSharedKind; infer_instance

/-- Cell holding a plain string value. -/
def strCell (s : String) : Cell := { S := some s }

/-- Cell holding a literal with the given rendering and integer value. -/
def litCell (s : String) (i : Int) : Cell := { L := some { repr := s, cmp := s, int64 := some i } }

/-- Rows and configuration for the missing-sort-binding scenario. -/
def C1rowA : Row := [(("a"), strCell ("1"))]

def C1rowB : Row := [(("a"), strCell ("2"))]

def C1table : Table := { bs := [("a")], mbs := [("a")], data := [C1rowA, C1rowB] }

def C1cfg : SortConfig := [{ Binding := ("b"), Desc := false }]

def C1aaps : List AliasAccPair := [{ InAlias := ("a"), OutAlias := ("a"), Acc := none }]

def C2row1 : Row := [(("z"), strCell ("2"))]

def C2row2 : Row := [(("z"), strCell ("1")), (("a"), strCell ("q"))]

def C2table : Table := { bs := [("a")], mbs := [("a")], data := [C2row1, C2row2] }

def C2cfg : SortConfig := [{ Binding := ("z"), Desc := false }]

def C2aaps : List AliasAccPair := [{ InAlias := ("a"), OutAlias := ("b"), Acc := none }]

def C2after : Table := { bs := [("a")], mbs := [("a")], data := [C2row2, C2row1] }

def C3row1 : Row := [(("g"), litCell ("1") 1), (("val"), litCell ("3") 3)]

def C3row2 : Row := [(("g"), litCell ("1") 1), (("val"), litCell ("4") 4)]

def C3row3 : Row := [(("g"), litCell ("2") 2), (("val"), litCell ("5") 5)]

def C3table : Table :=
  { bs := [("g"), ("val")], mbs := [("g"), ("val")], data := [C3row1, C3row2, C3row3] }

def C3cfg : SortConfig := [{ Binding := ("g"), Desc := false }]

def C3aaps : List AliasAccPair :=
  [{ InAlias := ("g"), OutAlias := ("g"), Acc := none },
   { InAlias := ("val"), OutAlias := ("total"), Acc := some (AccKind.sumInt 0) }]

def C4table : Table := { bs := [("a"), ("b")], mbs := [("a"), ("b")], data := [] }

def C4w : Table :=
  { bs := [("a"), ("b")], mbs := [("a"), ("b")], data := [[(("a"), strCell ("1"))]] }

def C6t1 : Table := { bs := [("a")], mbs := [("a")], data := [[(("a"), strCell ("1"))]] }

def C6t2 : Table := { bs := [("b")], mbs := [("b")], data := [[(("b"), strCell ("2"))]] }

def C7table : Table := { bs := [("a")], mbs := [("a")], data := [[(("a"), strCell ("1"))]] }

def C7tw : Table :=
  { bs := [("a")], mbs := [("a")],
    data := [[(("a"), strCell ("1"))], [(("a"), strCell ("2"))]] }

def C6resAB : Table :=
  { bs := [("a"), ("b")], mbs := [("a"), ("b")],
    data := [[(("a"), strCell ("1")), (("b"), strCell ("2"))]] }

def C6resBA : Table :=
  { bs := [("b"), ("a")], mbs := [("a"), ("b")],
    data := [[(("a"), strCell ("1")), (("b"), strCell ("2"))]] }

def C9t : Table := { bs := [("a"), ("b")], mbs := [("a"), ("b")], data := [] }

def C10ri : Row := [(("k"), strCell ("v"))]

def C10rj : Row := [(("k"), { N := some ("n") })]

def C10e : SortEntry := { Binding := ("k"), Desc := false }

def C5t1 : Table :=
  { bs := [("a"), ("b")], mbs := [("a"), ("b")],
    data := [[(("a"), strCell ("1")), (("b"), strCell ("2"))], [(("a"), strCell ("3"))]] }

def C5t2 : Table := { bs := [("c")], mbs := [("c")], data := [[(("c"), strCell ("4"))]] }

def C8vals : List GoValue :=
  [GoValue.cellPtr (some (strCell ("x"))), GoValue.cellPtr (some (strCell ("y"))),
   GoValue.cellPtr (some (strCell ("x"))), GoValue.cellPtr (some (strCell ("z")))]


theorem mkSetAux_mem (l : List String) (acc : List String) (x : String) :
    x ∈ l.foldl (fun m b => if b ∈ m then m else m ++ [b]) acc ↔ x ∈ acc ∨ x ∈ l := by
  induction l generalizing acc with
  | nil => simp
  | cons b rest ih =>
    simp only [List.foldl_cons]
    rw [ih]
    by_cases hb : b ∈ acc
    · rw [if_pos hb]
      simp only [List.mem_cons]
      constructor
      · rintro (h | h) <;> tauto
      · rintro (h | h | h)
        · tauto
        · subst h; tauto
        · tauto
    · rw [if_neg hb]
      simp only [List.mem_append, List.mem_singleton, List.mem_cons]
      tauto

theorem mem_mkSet (l : List String) (x : String) : x ∈ mkSet l ↔ x ∈ l := by
  unfold mkSet
  rw [mkSetAux_mem]
  simp

theorem mkSetAux_nodup (l : List String) :
    ∀ acc : List String, acc.Nodup →
      (l.foldl (fun m b => if b ∈ m then m else m ++ [b]) acc).Nodup := by
  induction l with
  | nil => intro acc h; simpa using h
  | cons b rest ih =>
    intro acc h
    simp only [List.foldl_cons]
    by_cases hb : b ∈ acc
    · rw [if_pos hb]; exact ih acc h
    · rw [if_neg hb]
      refine ih _ ?_
      simp [List.nodup_append, h, hb]

theorem mkSet_nodup (l : List String) : (mkSet l).Nodup := mkSetAux_nodup l [] (by simp)

theorem mkSet_perm_dedup (l : List String) : (mkSet l).Perm l.dedup :=
  (List.perm_ext_iff_of_nodup (mkSet_nodup l) (List.nodup_dedup l)).mpr
    (fun a => by rw [mem_mkSet, List.mem_dedup])

theorem mkSet_length_eq_iff (l : List String) : (mkSet l).length = l.length ↔ l.Nodup := by
  rw [(mkSet_perm_dedup l).length_eq]
  constructor
  · intro h
    have hs := List.dedup_sublist l
    have heq : l.dedup = l := hs.eq_of_length_le (le_of_eq h.symm)
    exact List.dedup_eq_self.mp heq
  · intro h
    rw [List.dedup_eq_self.mpr h]

theorem addBindings_cons (t : Table) (b : String) (rest : List String) :
    Table.AddBindings t (b :: rest) =
      Table.AddBindings
        (if b ∈ t.mbs then t else { t with bs := t.bs ++ [b], mbs := t.mbs ++ [b] }) rest := rfl

theorem addBindings_fresh :
    ∀ (l : List String) (t : Table), l.Nodup → (∀ x ∈ l, x ∉ t.mbs) →
      Table.AddBindings t l = { t with bs := t.bs ++ l, mbs := t.mbs ++ l }
  | [], t, _, _ => by simp [Table.AddBindings]
  | b :: rest, t, hnd, hfresh => by
    rw [addBindings_cons]
    have hb : b ∉ t.mbs := hfresh b (List.mem_cons_self b rest)
    rw [if_neg hb]
    rw [addBindings_fresh rest { t with bs := t.bs ++ [b], mbs := t.mbs ++ [b] }
      (List.Nodup.of_cons hnd)
      (by
        intro x hx
        simp only [List.mem_append, List.mem_singleton, not_or]
        refine ⟨hfresh x (List.mem_cons_of_mem b hx), ?_⟩
        intro hxb
        subst hxb
        exact (List.nodup_cons.mp hnd).1 hx)]
    simp

theorem rowLess_abort_of_missing (ri rj : Row) (e : SortEntry) (rest : SortConfig)
    (h : Row.find ri e.Binding = none ∨ Row.find rj e.Binding = none) :
    rowLess ri rj (e :: rest) = Res.abort := by
  unfold rowLess
  rcases h with h | h
  · rw [h]
  · cases hri : Row.find ri e.Binding
    · rfl
    · rw [h]

theorem insertRow_cases (cfg : SortConfig) (r : Row) :
    ∀ l : List Row,
      (∃ l2, insertRow cfg r l = Out.ok l2 ∧ l2.Perm (r :: l)) ∨ insertRow cfg r l = Out.abort
  | [] => Or.inl ⟨[r], rfl, List.Perm.refl _⟩
  | x :: xs => by
    rcases hc : rowLess x r cfg with b | u | _
    · cases b with
      | false => exact Or.inl ⟨r :: x :: xs, by simp [insertRow, hc], List.Perm.refl _⟩
      | true =>
        rcases insertRow_cases cfg r xs with ⟨l2, hi, hp⟩ | hab
        · refine Or.inl ⟨x :: l2, by simp [insertRow, hc, hi], ?_⟩
          exact (hp.cons x).trans (List.Perm.swap r x xs)
        · exact Or.inr (by simp [insertRow, hc, hab])
    · exact Or.inr (by simp [insertRow, hc])
    · exact Or.inr (by simp [insertRow, hc])

theorem sortRowsE_cases (cfg : SortConfig) :
    ∀ rows : List Row,
      (∃ l, sortRowsE cfg rows = Out.ok l ∧ l.Perm rows) ∨ sortRowsE cfg rows = Out.abort
  | [] => Or.inl ⟨[], rfl, List.Perm.refl _⟩
  | r :: rest => by
    rcases sortRowsE_cases cfg rest with ⟨l, hl, hperm⟩ | hab
    · rcases insertRow_cases cfg r l with ⟨l2, hi, hp2⟩ | hiab
      · refine Or.inl ⟨l2, ?_, hp2.trans (hperm.cons r)⟩
        simp only [sortRowsE, hl]
        exact hi
      · refine Or.inr ?_
        simp only [sortRowsE, hl]
        exact hiab
    · refine Or.inr ?_
      simp only [sortRowsE, hab]

theorem insertRow_missing (e : SortEntry) (rest : SortConfig) (r x : Row) (xs : List Row)
    (h : Row.find r e.Binding = none ∨ Row.find x e.Binding = none) :
    insertRow (e :: rest) r (x :: xs) = Out.abort := by
  have hab : rowLess x r (e :: rest) = Res.abort :=
    rowLess_abort_of_missing x r e rest h.symm
  simp [insertRow, hab]

theorem sortRowsE_cons (cfg : SortConfig) (r : Row) (rest : List Row) :
    sortRowsE cfg (r :: rest) =
      (match sortRowsE cfg rest with
        | Out.ok l => insertRow cfg r l
        | o => o) := rfl

theorem sortRowsE_missing_first (e : SortEntry) (rest : SortConfig) :
    ∀ rows : List Row, 2 ≤ rows.length →
      (∃ r ∈ rows, Row.find r e.Binding = none) →
      sortRowsE (e :: rest) rows = Out.abort
  | [], h, _ => absurd h (by simp)
  | [_], h, _ => absurd h (by simp)
  | r :: x :: xs, _, hex => by
    rcases hex with ⟨d, hd, hdn⟩
    rcases List.mem_cons.mp hd with hdr | hdtail
    · subst hdr
      rw [sortRowsE_cons]
      rcases sortRowsE_cases (e :: rest) (x :: xs) with ⟨l, hl, hperm⟩ | hab
      · rw [hl]
        cases l with
        | nil =>
          have hle := hperm.length_eq
          simp at hle
        | cons y ys => exact insertRow_missing e rest d y ys (Or.inl hdn)
      · rw [hab]
    · by_cases hlen : 2 ≤ (x :: xs).length
      · rw [sortRowsE_cons, sortRowsE_missing_first e rest (x :: xs) hlen ⟨d, hdtail, hdn⟩]
      · have hxs : xs = [] := by
          cases xs with
          | nil => rfl
          | cons a b => exact absurd (by simp) hlen
        subst hxs
        have hxd : d = x := by
          rcases List.mem_cons.mp hdtail with h1 | h1
          · exact h1
          · cases h1
        subst hxd
        rw [sortRowsE_cons, show sortRowsE (e :: rest) [d] = Out.ok [d] from rfl]
        exact insertRow_missing e rest r d [] (Or.inr hdn)

/-- C1: the spec requires a missing sort binding to surface as an error
propagated to the caller of Sort/Reduce; in the source the comparator instead
calls `log.Fatalf`, so the whole process aborts on a concrete two-row table
whose rows lack the configured binding, and no error value is ever
produced. -/
theorem claim1_counterexample :
    rowLess C1rowA C1rowB C1cfg = Res.abort
    ∧ Table.Sort C1table C1cfg = Res.abort
    ∧ Table.Reduce C1table C1cfg C1aaps = Res.abort := by decide

/-- C1 (amended): a comparison that reaches a SortConfig entry whose binding
is absent from either compared row makes the comparator call `log.Fatalf`:
the process aborts and no error is propagated to the caller of Sort/Reduce.
In particular, when some row lacks the binding named by the first SortConfig
entry and the table holds at least two rows, Sort always aborts, since every
row takes part in at least one comparison and every comparison starts at the
first entry.  A binding missing only at a later entry aborts only those runs
whose comparisons tie at all earlier entries and reach it. -/
theorem claim1_missing_sort_binding_aborts :
    (∀ (ri rj : Row) (e : SortEntry) (rest : SortConfig),
      (Row.find ri e.Binding = none ∨ Row.find rj e.Binding = none) →
      rowLess ri rj (e :: rest) = Res.abort)
    ∧ (∀ (t : Table) (e : SortEntry) (rest : SortConfig), 2 ≤ t.data.length →
      (∃ r ∈ t.data, Row.find r e.Binding = none) →
      Table.Sort t (e :: rest) = Res.abort) := by
  constructor
  · exact rowLess_abort_of_missing
  · intro t e rest hlen hex
    unfold Table.Sort
    simp only [sortRowsE_missing_first e rest t.data hlen hex]

theorem claim1_witness :
    (Row.find C1rowA ("b") = none ∨ Row.find C1rowB ("b") = none)
    ∧ rowLess C1rowA C1rowB C1cfg = Res.abort
    ∧ 2 ≤ C1table.data.length ∧ (∃ r ∈ C1table.data, Row.find r ("b") = none)
    ∧ Table.Sort C1table C1cfg = Res.abort :=
  ⟨by decide,
   claim1_missing_sort_binding_aborts.1 C1rowA C1rowB { Binding := ("b"), Desc := false } []
     (by decide),
   by decide, by decide,
   claim1_missing_sort_binding_aborts.2 C1table { Binding := ("b"), Desc := false } []
     (by decide) (by decide)⟩

/-- C3: on the spec's own reduction example — rows (g=1,val=3), (g=1,val=4),
(g=2,val=5), SortConfig [(g,asc)], pairs g→g without accumulator and
val→total with the integer-sum accumulator started at 0 — the source does not
produce (g=1,total=7),(g=2,total=5): `fullGroupRangeReduce` hands the row's
`*Cell` to `Accumulate`, and `sumInt64.Accumulate` type-asserts it to
`*literal.Literal` with the panicking single-result form, so the call crashes
the process. -/
theorem claim3_reduce_example_crashes :
    Table.Reduce C3table C3cfg C3aaps = Res.abort := by decide

/-- C4: the claim says projecting onto an unknown binding always fails with
an error; on a table with zero rows `ProjectBindings` returns early with
success, leaving the directory untouched, even for an unknown name. -/
theorem claim4_counterexample :
    Table.ProjectBindings C4table [("x")] = Res.ok C4table
    ∧ (("x") : String) ∉ C4table.mbs
    ∧ Table.Bindings C4table ≠ [("x")] := by decide

/-- C4 (amended): on a table with at least one row and at least one binding,
projecting onto a list containing an unknown name fails and leaves the table
unchanged, and projecting onto a duplicate-free subset of the bindings
succeeds, making the directory exactly that subset in the requested order
while the row data is untouched; on a table with zero rows or zero bindings
the operation is a silent successful no-op. -/
theorem claim4_project_bindings :
    (∀ (t : Table) (bs : List String), (t.data.length = 0 ∨ t.mbs.length = 0) →
      Table.ProjectBindings t bs = Res.ok t)
    ∧ (∀ (t : Table) (bs : List String), t.data.length ≠ 0 → t.mbs.length ≠ 0 →
      (∃ b ∈ bs, b ∉ t.mbs) → Table.ProjectBindings t bs = Res.err t)
    ∧ (∀ (t : Table) (bs : List String), t.data.length ≠ 0 → t.mbs.length ≠ 0 →
      bs.Nodup → (∀ b ∈ bs, b ∈ t.mbs) →
      Table.ProjectBindings t bs = Res.ok { bs := bs, mbs := bs, data := t.data }) := by
  refine ⟨?_, ?_, ?_⟩
  · intro t bs h
    unfold Table.ProjectBindings
    rw [if_pos h]
  · intro t bs h1 h2 h3
    unfold Table.ProjectBindings
    rw [if_neg (by tauto)]
    rw [if_neg ?_]
    obtain ⟨b, hb, hnb⟩ := h3
    simp only [List.all_eq_true, decide_eq_true_eq]
    intro hall
    exact hnb (hall b hb)
  · intro t bs h1 h2 hnd hsub
    unfold Table.ProjectBindings
    rw [if_neg (by tauto)]
    rw [if_pos (by simp only [List.all_eq_true, decide_eq_true_eq]; exact hsub)]
    rw [addBindings_fresh bs { t with bs := [], mbs := [] } hnd (by intro x _; simp)]
    simp

theorem claim4_witness :
    C4w.data.length ≠ 0 ∧ C4w.mbs.length ≠ 0 ∧ (∃ b ∈ [("x")], b ∉ C4w.mbs)
    ∧ Table.ProjectBindings C4w [("x")] = Res.err C4w
    ∧ List.Nodup [("b")] ∧ (∀ b ∈ [("b")], b ∈ C4w.mbs)
    ∧ Table.ProjectBindings C4w [("b")] = Res.ok { bs := [("b")], mbs := [("b")], data := C4w.data } :=
  ⟨by decide, by decide, by decide,
   claim4_project_bindings.2.1 C4w [("x")] (by decide) (by decide) (by decide),
   by decide, by decide,
   claim4_project_bindings.2.2 C4w [("b")] (by decide) (by decide) (by decide) (by decide)⟩

/-- C7: the claim says a negative limit is rejected as a validation error;
`Limit` has no error return at all, and on a concrete one-row table a
negative argument reaches the negative-length slice allocation, which panics
and crashes the process instead of reporting a validation error. -/
theorem claim7_counterexample : Table.Limit C7table (-1) = Res.abort := by decide

/-- C7 (amended): Limit with 0 ≤ n < row count keeps exactly the first n rows
unchanged in content and relative order; Limit with n ≥ row count is a no-op;
Limit with negative n is not rejected as a validation error — the call
panics (process crash) on the negative-length slice allocation. -/
theorem claim7_limit :
    (∀ (t : Table) (n : Int), 0 ≤ n → n < (t.data.length : Int) →
      Table.Limit t n = Res.ok { t with data := t.data.take n.toNat })
    ∧ (∀ (t : Table) (n : Int), (t.data.length : Int) ≤ n → Table.Limit t n = Res.ok t)
    ∧ (∀ (t : Table) (n : Int), n < 0 → Table.Limit t n = Res.abort) := by
  refine ⟨?_, ?_, ?_⟩
  · intro t n h0 hlt
    unfold Table.Limit
    rw [if_pos hlt, if_neg (by omega)]
  · intro t n h
    unfold Table.Limit
    rw [if_neg (by omega)]
  · intro t n h
    unfold Table.Limit
    rw [if_pos (by have := Int.ofNat_nonneg t.data.length; omega), if_pos h]

/-- C6: the claim says two runs of DotProduct on equal inputs produce the
same binding order, namely the receiver's bindings followed by the other's;
the source rebuilds the list by ranging over the unordered membership map, so
two legitimate iteration orders of the same key set yield different binding
lists, and one of them is not receiver-then-other. -/
theorem claim6_counterexample :
    IterOrder [("a"), ("b")] (unionSet C6t1.mbs C6t2.mbs)
    ∧ IterOrder [("b"), ("a")] (unionSet C6t1.mbs C6t2.mbs)
    ∧ Table.DotProduct C6t1 C6t2 [("a"), ("b")] ≠ Table.DotProduct C6t1 C6t2 [("b"), ("a")]
    ∧ Table.DotProduct C6t1 C6t2 [("b"), ("a")] = Res.ok C6resBA
    ∧ C6resBA.bs ≠ C6t1.bs ++ C6t2.bs := by decide

/-- C6 (amended): after a successful DotProduct the receiver's binding list
is a duplicate-free enumeration of exactly the union of the two binding sets,
but its order comes from iterating the unordered membership map: it depends
on the iteration order and need not be the receiver's bindings followed by
the other's. -/
theorem claim6_dot_product_bindings :
    ∀ (t t2 : Table) (pi : List String) (u : Table),
      IterOrder pi (unionSet t.mbs t2.mbs) →
      Table.DotProduct t t2 pi = Res.ok u →
      u.bs.Nodup ∧ (∀ x, x ∈ u.bs ↔ x ∈ t.mbs ∨ x ∈ t2.mbs) := by
  intro t t2 pi u hio h
  unfold Table.DotProduct at h
  by_cases hd : disjointBinding t.mbs t2.mbs = true
  · rw [if_neg (by simp [hd])] at h
    injection h with h
    subst h
    refine ⟨hio.1, ?_⟩
    intro x
    constructor
    · intro hx
      have hm := hio.2.1 x hx
      unfold unionSet at hm
      rw [mem_mkSet] at hm
      simpa using hm
    · intro hx
      refine hio.2.2 x ?_
      unfold unionSet
      rw [mem_mkSet]
      simpa using hx
  · rw [if_pos (by simp [Bool.not_eq_true] at hd; simp [hd])] at h
    cases h

theorem claim6_witness :
    IterOrder [("a"), ("b")] (unionSet C6t1.mbs C6t2.mbs)
    ∧ Table.DotProduct C6t1 C6t2 [("a"), ("b")] = Res.ok C6resAB
    ∧ (C6resAB.bs.Nodup ∧ (∀ x, x ∈ C6resAB.bs ↔ x ∈ C6t1.mbs ∨ x ∈ C6t2.mbs)) :=
  ⟨by decide, by decide,
   claim6_dot_product_bindings C6t1 C6t2 [("a"), ("b")] C6resAB (by decide) (by decide)⟩

theorem addBindings_inv :
    ∀ (l : List String) (t : Table), TableInv t → TableInv (Table.AddBindings t l)
  | [], t, h => by simpa [Table.AddBindings] using h
  | b :: rest, t, h => by
    rw [addBindings_cons]
    by_cases hb : b ∈ t.mbs
    · rw [if_pos hb]
      exact addBindings_inv rest t h
    · rw [if_neg hb]
      refine addBindings_inv rest _ ?_
      obtain ⟨hnd, hm1, hm2⟩ := h
      refine ⟨?_, ?_, ?_⟩
      · simp only [List.nodup_append, List.nodup_singleton, true_and]
        refine ⟨hnd, ?_⟩
        intro a ha
        simp only [List.mem_singleton]
        intro hab
        subst hab
        exact hb (hm2 a ha)
      · intro x hx
        simp only [List.mem_append, List.mem_singleton] at hx ⊢
        rcases hx with hx | hx
        · exact Or.inl (hm1 x hx)
        · exact Or.inr hx
      · intro x hx
        simp only [List.mem_append, List.mem_singleton] at hx ⊢
        rcases hx with hx | hx
        · exact Or.inl (hm2 x hx)
        · exact Or.inr hx

theorem new_inv (bs : List String) (t : Table) (h : New bs = some t) : TableInv t := by
  unfold New at h
  by_cases hl : (mkSet bs).length = bs.length
  · rw [if_pos hl] at h
    injection h with h
    subst h
    exact ⟨(mkSet_length_eq_iff bs).mp hl,
      fun x hx => (mem_mkSet bs x).mp hx,
      fun x hx => (mem_mkSet bs x).mpr hx⟩
  · rw [if_neg hl] at h
    cases h

theorem new_dup_fails (bs : List String) (h : ¬ bs.Nodup) : New bs = none := by
  unfold New
  rw [if_neg (fun hc => h ((mkSet_length_eq_iff bs).mp hc))]

theorem reduceBindingsAux_cons (a : AliasAccPair) (rest : List AliasAccPair)
    (p : List String × List String) :
    reduceBindingsAux (a :: rest) p =
      reduceBindingsAux rest
        (if a.OutAlias ∈ p.2 then p else (p.1 ++ [a.OutAlias], p.2 ++ [a.OutAlias])) := rfl

theorem reduceBindingsAux_inv :
    ∀ (aaps : List AliasAccPair) (p : List String × List String), p.1 = p.2 → p.1.Nodup →
      (reduceBindingsAux aaps p).1 = (reduceBindingsAux aaps p).2
        ∧ (reduceBindingsAux aaps p).1.Nodup
  | [], p, he, hn => ⟨he, hn⟩
  | a :: rest, p, he, hn => by
    rw [reduceBindingsAux_cons]
    by_cases hb : a.OutAlias ∈ p.2
    · rw [if_pos hb]
      exact reduceBindingsAux_inv rest p he hn
    · rw [if_neg hb]
      refine reduceBindingsAux_inv rest _ (by rw [he]) ?_
      simp only [List.nodup_append, List.nodup_singleton, true_and]
      refine ⟨hn, ?_⟩
      intro x hx
      simp only [List.mem_singleton]
      intro hxa
      subst hxa
      exact hb (he ▸ hx)

theorem project_inv (t : Table) (bs : List String) (u : Table) (hinv : TableInv t)
    (h : Table.ProjectBindings t bs = Res.ok u) : TableInv u := by
  unfold Table.ProjectBindings at h
  split at h
  · cases h
    exact hinv
  · split at h
    · injection h with h
      subst h
      exact addBindings_inv bs { t with bs := [], mbs := [] } ⟨List.nodup_nil, by simp, by simp⟩
    · cases h

theorem append_inv (t t2 u : Table) (h1 : TableInv t) (h2 : TableInv t2)
    (h : Table.AppendTable t (some t2) = Res.ok u) : TableInv u := by
  have h2' : (if t.bs.length > 0 && !equalBindings t.mbs t2.mbs then (Res.err t)
      else if t.bs.length = 0 then
        Res.ok { bs := t2.bs, mbs := t2.mbs, data := t.data ++ t2.data }
      else Res.ok { t with data := t.data ++ t2.data }) = Res.ok u := h
  split at h2'
  · cases h2'
  · split at h2'
    · injection h2' with h2'
      subst h2'
      exact ⟨h2.1, h2.2.1, h2.2.2⟩
    · injection h2' with h2'
      subst h2'
      exact ⟨h1.1, h1.2.1, h1.2.2⟩

theorem dot_inv (t t2 : Table) (pi : List String) (u : Table)
    (hio : IterOrder pi (unionSet t.mbs t2.mbs))
    (h : Table.DotProduct t t2 pi = Res.ok u) : TableInv u := by
  unfold Table.DotProduct at h
  split at h
  · cases h
  · injection h with h
    subst h
    exact ⟨hio.1, fun x hx => hio.2.2 x hx, fun x hx => hio.2.1 x hx⟩

theorem reduce_ok_inv (t : Table) (cfg : SortConfig) (aaps : List AliasAccPair) (u : Table)
    (hinv : TableInv t) (h : Table.Reduce t cfg aaps = Res.ok u) : TableInv u := by
  unfold Table.Reduce at h
  split at h
  · cases h
  · split at h
    · cases h
    · split at h
      · cases h
      · split at h
        · cases h
        · split at h
          · injection h with h
            subst h
            exact hinv
          · split at h
            · cases h
            · cases h
            · split at h
              · cases h
              · cases h
              · injection h with h
                subst h
                obtain ⟨he, hn⟩ := reduceBindingsAux_inv aaps ([], []) rfl List.nodup_nil
                exact ⟨hn, fun x hx => by
                    unfold reduceBindings at hx ⊢
                    rw [he]; exact hx,
                  fun x hx => by
                    unfold reduceBindings at hx ⊢
                    rw [← he]; exact hx⟩

/-- C9: every table reachable through New, AddBindings, ProjectBindings,
AppendTable, DotProduct (under any map iteration order) and Reduce keeps the
ordered binding list duplicate-free with the membership set holding exactly
its names, and New fails when the initial list contains duplicates. -/
theorem claim9_invariants :
    (∀ (bs : List String) (t : Table), New bs = some t → TableInv t)
    ∧ (∀ bs : List String, ¬ bs.Nodup → New bs = none)
    ∧ (∀ (t : Table) (l : List String), TableInv t → TableInv (Table.AddBindings t l))
    ∧ (∀ (t : Table) (bs : List String) (u : Table), TableInv t →
        Table.ProjectBindings t bs = Res.ok u → TableInv u)
    ∧ (∀ (t t2 u : Table), TableInv t → TableInv t2 →
        Table.AppendTable t (some t2) = Res.ok u → TableInv u)
    ∧ (∀ (t t2 : Table) (pi : List String) (u : Table),
        IterOrder pi (unionSet t.mbs t2.mbs) →
        Table.DotProduct t t2 pi = Res.ok u → TableInv u)
    ∧ (∀ (t : Table) (cfg : SortConfig) (aaps : List AliasAccPair) (u : Table), TableInv t →
        Table.Reduce t cfg aaps = Res.ok u → TableInv u) :=
  ⟨new_inv, new_dup_fails, fun t l h => addBindings_inv l t h,
   project_inv, append_inv, dot_inv, reduce_ok_inv⟩

theorem claim9_witness :
    New [("a"), ("b")] = some C9t ∧ TableInv C9t
    ∧ ¬ List.Nodup [("a"), ("a")] ∧ New [("a"), ("a")] = none
    ∧ TableInv (Table.AddBindings C9t [("c"), ("a")]) :=
  ⟨by decide, claim9_invariants.1 [("a"), ("b")] C9t (by decide),
   by decide, claim9_invariants.2.1 [("a"), ("a")] (by decide),
   claim9_invariants.2.2.1 C9t [("c"), ("a")] (claim9_invariants.1 [("a"), ("b")] C9t (by decide))⟩

theorem sort_not_err (t : Table) (cfg : SortConfig) (u : Table) :
    Table.Sort t cfg ≠ Res.err u := by
  unfold Table.Sort
  cases cfg with
  | nil => simp
  | cons e rest =>
    rcases sortRowsE_cases (e :: rest) t.data with ⟨l, hl, _⟩ | hab
    · simp [hl]
    · simp [hab]

theorem sort_ok_shape (t : Table) (cfg : SortConfig) (u : Table)
    (h : Table.Sort t cfg = Res.ok u) :
    u.bs = t.bs ∧ u.mbs = t.mbs ∧ u.data.Perm t.data := by
  unfold Table.Sort at h
  cases cfg with
  | nil =>
    injection h with h
    subst h
    exact ⟨rfl, rfl, List.Perm.refl _⟩
  | cons e rest =>
    rcases sortRowsE_cases (e :: rest) t.data with ⟨l, hl, hperm⟩ | hab
    · have h2 : Res.ok { t with data := l } = Res.ok u := by
        rw [hl] at h
        exact h
      injection h2 with h2
      subst h2
      exact ⟨rfl, rfl, hperm⟩
    · rw [hab] at h
      cases h

/-- C2: the claim says a Reduce that returns an error leaves the row sequence,
including its order, exactly as before the call; on a concrete table the
validation passes, the in-place sort swaps the two rows, and the per-group
fold then fails (a group reduces to an empty row), so the error return leaves
the rows re-ordered. -/
theorem claim2_counterexample :
    Table.Reduce C2table C2cfg C2aaps = Res.err C2after
    ∧ C2after.data ≠ C2table.data
    ∧ C2after.data.Perm C2table.data := by
  refine ⟨by decide, by decide, ?_⟩
  have h : C2after.data = [C2row2, C2row1] := rfl
  have h2 : C2table.data = [C2row1, C2row2] := rfl
  rw [h, h2]
  exact List.Perm.swap C2row1 C2row2 []

/-- C2 (amended): every configuration-validation failure of Reduce is
detected before any mutation and returns an error with the table exactly
unchanged; any error return of Reduce leaves the bindings unchanged and the
rows a permutation of the originals — but a failure during per-group folding
happens after the in-place sort, so the original row order is not restored. -/
theorem claim2_reduce_error_state :
    (∀ (t : Table) (cfg : SortConfig) (aaps : List AliasAccPair),
      reduceValid t aaps = false → Table.Reduce t cfg aaps = Res.err t)
    ∧ (∀ (t : Table) (cfg : SortConfig) (aaps : List AliasAccPair) (u : Table),
      Table.Reduce t cfg aaps = Res.err u →
      u.bs = t.bs ∧ u.mbs = t.mbs ∧ u.data.Perm t.data) := by
  constructor
  · intro t cfg aaps h
    unfold reduceValid at h
    unfold Table.Reduce
    by_cases h1 : t.bs.length = (inKeys aaps).length
    · by_cases ha : t.bs.all (fun b => decide (b ∈ inKeys aaps)) = true
      · by_cases hb : (inKeys aaps).all (fun b => decide (b ∈ t.mbs)) = true
        · exfalso
          rw [h1, ha, hb] at h
          simp at h
        · rw [if_neg (by omega), if_neg (by simp [ha]), if_pos (by simp [hb])]
      · rw [if_neg (by omega), if_pos (by simp [ha])]
    · rw [if_pos h1]
  · intro t cfg aaps u h
    unfold Table.Reduce at h
    split at h
    · injection h with h
      subst h
      exact ⟨rfl, rfl, List.Perm.refl _⟩
    · split at h
      · injection h with h
        subst h
        exact ⟨rfl, rfl, List.Perm.refl _⟩
      · split at h
        · injection h with h
          subst h
          exact ⟨rfl, rfl, List.Perm.refl _⟩
        · split at h
          · injection h with h
            subst h
            exact ⟨rfl, rfl, List.Perm.refl _⟩
          · split at h
            · cases h
            · split at h
              · exact absurd (by assumption) (sort_not_err t cfg _)
              · cases h
              · split at h
                · cases h
                · injection h with h
                  subst h
                  exact sort_ok_shape t cfg _ (by assumption)
                · cases h

theorem claim2_witness :
    reduceValid C2table [] = false
    ∧ Table.Reduce C2table C2cfg [] = Res.err C2table
    ∧ (C2after.bs = C2table.bs ∧ C2after.mbs = C2table.mbs
        ∧ C2after.data.Perm C2table.data) :=
  ⟨by decide,
   claim2_reduce_error_state.1 C2table C2cfg [] (by decide),
   claim2_reduce_error_state.2 C2table C2cfg C2aaps C2after (by decide)⟩

theorem pick_not_both (a b : Option String) (p : String × String)
    (h : ¬(a.isSome ∧ b.isSome)) : pick a b p = p := by
  cases a <;> cases b <;> simp [pick] at h ⊢

theorem stringLess_empty (d : Bool) : stringLess ("") ("") d = 0 := by
  cases d <;> decide

/-- C10: when two compared rows both carry the configured binding but the two
cells share no variant kind (or both hold no value), every variant check
falls through, both rendered strings stay empty, and the comparison is a tie
at that key: the comparator moves to the next configured entry, or reports
not-less when this was the last entry. -/
theorem claim10_kind_mismatch_ties :
    ∀ (ri rj : Row) (e : SortEntry) (rest : SortConfig) (ci cj : Cell),
      Row.find ri e.Binding = some ci → Row.find rj e.Binding = some cj →
      noSharedKind ci cj →
      rowLess ri rj (e :: rest) = (if rest = [] then Res.ok false else rowLess ri rj rest) := by
  intro ri rj e rest ci cj hci hcj hns
  obtain ⟨h1, h2, h3, h4, h5⟩ := hns
  conv_lhs => rw [rowLess]
  simp only [hci, hcj]
  rw [pick_not_both ci.S cj.S _ h1, pick_not_both ci.N cj.N _ h2,
    pick_not_both ci.P cj.P _ h3,
    pick_not_both (ci.L.map Literal.cmp) (cj.L.map Literal.cmp) _ (by simpa using h4),
    pick_not_both ci.T cj.T _ h5]
  simp only [stringLess_empty]
  by_cases hr : rest = [] <;> simp [hr]

theorem claim10_witness :
    Row.find C10ri C10e.Binding = some (strCell ("v"))
    ∧ Row.find C10rj C10e.Binding = some { N := some ("n") }
    ∧ noSharedKind (strCell ("v")) { N := some ("n") }
    ∧ rowLess C10ri C10rj [C10e] = Res.ok false :=
  ⟨by decide, by decide, by decide,
   (claim10_kind_mismatch_ties C10ri C10rj C10e [] (strCell ("v")) { N := some ("n") }
     (by decide) (by decide) (by decide)).trans (by decide)⟩

theorem runAcc_countDistinct :
    ∀ (vs : List GoValue) (s : List String) (i : Nat), i < vs.length →
      (runAcc (AccState.countDistinct s) vs).get? i
        = some ((((vs.take (i + 1)).map goFormat).foldl cdInsert s).length : Int)
  | [], _, i, h => absurd h (by simp)
  | v :: rest, s, 0, _ => by
    simp [runAcc, AccState.Accumulate]
  | v :: rest, s, i + 1, h => by
    have ih := runAcc_countDistinct rest (cdInsert s (goFormat v)) i (by simpa using h)
    simp only [runAcc, AccState.Accumulate, List.get?_cons_succ, List.take_succ_cons,
      List.map_cons, List.foldl_cons]
    exact ih

theorem cdInsert_mem (st : List String) (a x : String) :
    x ∈ cdInsert st a ↔ x ∈ st ∨ x = a := by
  unfold cdInsert
  by_cases h : a ∈ st
  · rw [if_pos h]
    constructor
    · tauto
    · rintro (hx | hx)
      · exact hx
      · subst hx
        exact h
  · rw [if_neg h]
    simp [List.mem_append]

theorem cdFold_mem (l : List String) :
    ∀ (s : List String) (x : String), x ∈ l.foldl cdInsert s ↔ x ∈ s ∨ x ∈ l := by
  induction l with
  | nil => simp
  | cons a rest ih =>
    intro s x
    simp only [List.foldl_cons]
    rw [ih, cdInsert_mem]
    simp only [List.mem_cons]
    tauto

theorem cdFold_nodup (l : List String) :
    ∀ s : List String, s.Nodup → (l.foldl cdInsert s).Nodup := by
  induction l with
  | nil => intro s h; simpa using h
  | cons a rest ih =>
    intro s h
    simp only [List.foldl_cons]
    refine ih _ ?_
    unfold cdInsert
    by_cases ha : a ∈ s
    · rw [if_pos ha]
      exact h
    · rw [if_neg ha]
      simp [List.nodup_append, h, ha]

theorem cdFold_length_dedup (l : List String) :
    (l.foldl cdInsert []).length = l.dedup.length := by
  have hperm : (l.foldl cdInsert []).Perm l.dedup :=
    (List.perm_ext_iff_of_nodup (cdFold_nodup l [] List.nodup_nil) (List.nodup_dedup l)).mpr
      (fun a => by rw [cdFold_mem, List.mem_dedup]; simp)
  exact hperm.length_eq

/-- C8: after a Reset, the i-th call of the count-distinct accumulator
returns the number of distinct string renderings among the first i values
accumulated since the Reset — the running distinct count at every
intermediate call, not only the final one. -/
theorem claim8_count_distinct :
    ∀ (st : List String) (vs : List GoValue) (i : Nat), i < vs.length →
      (runAcc (AccState.Reset (AccState.countDistinct st)) vs).get? i
        = some ((((vs.take (i + 1)).map goFormat).dedup.length : Int)) := by
  intro st vs i h
  have hr : AccState.Reset (AccState.countDistinct st) = AccState.countDistinct [] := rfl
  rw [hr, runAcc_countDistinct vs [] i h, cdFold_length_dedup]

theorem claim8_witness :
    2 < C8vals.length
    ∧ (runAcc (AccState.Reset (AccState.countDistinct [])) C8vals).get? 2 = some 2
    ∧ runAcc (AccState.Reset (AccState.countDistinct [])) C8vals = [1, 2, 2, 3] :=
  ⟨by decide,
   (claim8_count_distinct [] C8vals 2 (by decide)).trans (by decide),
   by decide⟩

theorem find_insertCell (r : Row) (k k2 : String) (c : Cell) :
    Row.find (Row.insertCell r k c) k2 = if k2 = k then some c else Row.find r k2 := by
  induction r with
  | nil => simp [Row.insertCell, Row.find]
  | cons kv rest ih =>
    obtain ⟨k1, c1⟩ := kv
    simp only [Row.insertCell]
    by_cases h1 : k1 = k
    · subst h1
      rw [if_pos rfl]
      simp only [Row.find]
      by_cases h2 : k2 = k1 <;> simp [h2]
    · rw [if_neg h1]
      simp only [Row.find, ih]
      by_cases h2 : k2 = k1 <;> by_cases h3 : k2 = k <;> simp_all

theorem find_eq_none_iff (r : Row) (k : String) :
    Row.find r k = none ↔ k ∉ rowKeys r := by
  induction r with
  | nil => simp [Row.find, rowKeys]
  | cons kv rest ih =>
    obtain ⟨k1, c1⟩ := kv
    simp only [Row.find, rowKeys, List.map_cons, List.mem_cons]
    by_cases h : k = k1 <;> simp_all [rowKeys]

theorem rowUnionInto_cons (acc : Row) (k1 : String) (c1 : Cell) (rest : Row) :
    rowUnionInto acc ((k1, c1) :: rest) = rowUnionInto (Row.insertCell acc k1 c1) rest := rfl

theorem rowUnionInto_find (om : Row) :
    ∀ (acc : Row) (k : String), (rowKeys om).Nodup →
      Row.find (rowUnionInto acc om) k = (Row.find om k).or (Row.find acc k) := by
  induction om with
  | nil =>
    intro acc k _
    simp [rowUnionInto, Row.find, Option.or]
  | cons kv rest ih =>
    intro acc k hnd
    obtain ⟨k1, c1⟩ := kv
    have hnd2 : (rowKeys rest).Nodup := by
      have := hnd
      simp only [rowKeys, List.map_cons, List.nodup_cons] at this
      exact this.2
    have hk1 : k1 ∉ rowKeys rest := by
      have := hnd
      simp only [rowKeys, List.map_cons, List.nodup_cons] at this
      exact this.1
    rw [rowUnionInto_cons, ih _ k hnd2, find_insertCell]
    simp only [Row.find]
    by_cases h2 : k = k1
    · subst h2
      rw [(find_eq_none_iff rest k).mpr hk1]
      simp [Option.or]
    · rw [if_neg h2, if_neg h2]

theorem mergeRows_pair_find (r1 r2 : Row) (k : String)
    (h1 : (rowKeys r1).Nodup) (h2 : (rowKeys r2).Nodup) :
    Row.find (MergeRows [r1, r2]) k = (Row.find r2 k).or (Row.find r1 k) := by
  have e : MergeRows [r1, r2] = rowUnionInto (rowUnionInto [] r1) r2 := rfl
  rw [e, rowUnionInto_find r2 _ k h2, rowUnionInto_find r1 [] k h1]
  cases Row.find r2 k <;> cases Row.find r1 k <;> simp [Option.or, Row.find]

theorem cross_length (l1 l2 : List Row) :
    ((l1.map (fun r1 => l2.map (fun r2 => MergeRows [r1, r2]))).flatten).length
      = l1.length * l2.length := by
  induction l1 with
  | nil => simp
  | cons r rest ih =>
    simp only [List.map_cons, List.flatten_cons, List.length_append, List.length_map, ih,
      List.length_cons]
    ring

theorem cross_mem (l1 l2 : List Row) (s : Row) :
    s ∈ (l1.map (fun r1 => l2.map (fun r2 => MergeRows [r1, r2]))).flatten
      ↔ ∃ r1 ∈ l1, ∃ r2 ∈ l2, s = MergeRows [r1, r2] := by
  simp only [List.mem_flatten, List.mem_map]
  constructor
  · rintro ⟨ll, ⟨r1, hr1, rfl⟩, hs⟩
    obtain ⟨r2, hr2, rfl⟩ := List.mem_map.mp hs
    exact ⟨r1, hr1, r2, hr2, rfl⟩
  · rintro ⟨r1, hr1, r2, hr2, rfl⟩
    exact ⟨l2.map (fun r2 => MergeRows [r1, r2]), ⟨r1, hr1, rfl⟩,
      List.mem_map.mpr ⟨r2, hr2, rfl⟩⟩

theorem disjointBinding_spec (m1 m2 : List String) (h : disjointBinding m1 m2 = true)
    (k : String) (hk : k ∈ m1) : k ∉ m2 := by
  unfold disjointBinding at h
  rw [List.all_eq_true] at h
  have hx := h k hk
  simpa using hx

theorem find_some_mem (r : Row) (k : String) (c : Cell) (h : Row.find r k = some c) :
    k ∈ rowKeys r := by
  by_contra hn
  rw [← find_eq_none_iff] at hn
  rw [h] at hn
  cases hn

/-- C5: for tables with disjoint binding sets whose rows only carry declared
bindings, DotProduct succeeds (under any map iteration order) and the row
sequence becomes exactly n1 times n2 rows, each the merge of one row of the
receiver with one row of the other table in which every cell of both rows is
retained and nothing else appears; with overlapping binding sets it fails
without mutating the receiver. -/
theorem claim5_dot_product :
    ∀ (t t2 : Table) (pi : List String),
      (∀ r ∈ t.data, (rowKeys r).Nodup ∧ ∀ k ∈ rowKeys r, k ∈ t.mbs) →
      (∀ r ∈ t2.data, (rowKeys r).Nodup ∧ ∀ k ∈ rowKeys r, k ∈ t2.mbs) →
      (disjointBinding t.mbs t2.mbs = true →
        ∃ u, Table.DotProduct t t2 pi = Res.ok u
          ∧ u.data.length = t.data.length * t2.data.length
          ∧ (∀ s ∈ u.data, ∃ r1 ∈ t.data, ∃ r2 ∈ t2.data,
              (∀ k c, Row.find r1 k = some c → Row.find s k = some c)
              ∧ (∀ k c, Row.find r2 k = some c → Row.find s k = some c)
              ∧ (∀ k, Row.find s k = none → Row.find r1 k = none ∧ Row.find r2 k = none))
          ∧ (∀ r1 ∈ t.data, ∀ r2 ∈ t2.data, MergeRows [r1, r2] ∈ u.data))
      ∧ (disjointBinding t.mbs t2.mbs = false → Table.DotProduct t t2 pi = Res.err t) := by
  intro t t2 pi hw1 hw2
  constructor
  · intro hd
    refine ⟨(⟨pi, unionSet t.mbs t2.mbs, dotData t t2⟩ : Table), ?_, ?_, ?_, ?_⟩
    · unfold Table.DotProduct
      rw [if_neg (by simp [hd])]
    · exact cross_length t.data t2.data
    · intro s hs
      obtain ⟨r1, hr1, r2, hr2, hseq⟩ := (cross_mem t.data t2.data s).mp hs
      obtain ⟨hn1, hk1⟩ := hw1 r1 hr1
      obtain ⟨hn2, hk2⟩ := hw2 r2 hr2
      subst hseq
      refine ⟨r1, hr1, r2, hr2, ?_, ?_, ?_⟩
      · intro k c hkc
        rw [mergeRows_pair_find r1 r2 k hn1 hn2]
        have h2n : Row.find r2 k = none := (find_eq_none_iff r2 k).mpr
          (fun hmem =>
            disjointBinding_spec t.mbs t2.mbs hd k (hk1 k (find_some_mem r1 k c hkc))
              (hk2 k hmem))
        rw [h2n, hkc]
        rfl
      · intro k c hkc
        rw [mergeRows_pair_find r1 r2 k hn1 hn2, hkc]
        rfl
      · intro k hk
        rw [mergeRows_pair_find r1 r2 k hn1 hn2] at hk
        rw [Option.or_eq_none] at hk
        exact ⟨hk.2, hk.1⟩
    · intro r1 hr1 r2 hr2
      exact (cross_mem t.data t2.data (MergeRows [r1, r2])).mpr ⟨r1, hr1, r2, hr2, rfl⟩
  · intro hd
    unfold Table.DotProduct
    rw [if_pos (by simp [hd])]

theorem claim5_witness :
    (∀ r ∈ C5t1.data, (rowKeys r).Nodup ∧ ∀ k ∈ rowKeys r, k ∈ C5t1.mbs)
    ∧ (∀ r ∈ C5t2.data, (rowKeys r).Nodup ∧ ∀ k ∈ rowKeys r, k ∈ C5t2.mbs)
    ∧ ((disjointBinding C5t1.mbs C5t2.mbs = true →
        ∃ u, Table.DotProduct C5t1 C5t2 [("a"), ("b"), ("c")] = Res.ok u
          ∧ u.data.length = C5t1.data.length * C5t2.data.length
          ∧ (∀ s ∈ u.data, ∃ r1 ∈ C5t1.data, ∃ r2 ∈ C5t2.data,
              (∀ k c, Row.find r1 k = some c → Row.find s k = some c)
              ∧ (∀ k c, Row.find r2 k = some c → Row.find s k = some c)
              ∧ (∀ k, Row.find s k = none → Row.find r1 k = none ∧ Row.find r2 k = none))
          ∧ (∀ r1 ∈ C5t1.data, ∀ r2 ∈ C5t2.data, MergeRows [r1, r2] ∈ u.data))
      ∧ (disjointBinding C5t1.mbs C5t2.mbs = false →
        Table.DotProduct C5t1 C5t2 [("a"), ("b"), ("c")] = Res.err C5t1)) :=
  ⟨by decide, by decide,
   claim5_dot_product C5t1 C5t2 [("a"), ("b"), ("c")] (by decide) (by decide)⟩

theorem claim7_witness :
    (0 ≤ (1 : Int)) ∧ ((1 : Int) < (C7tw.data.length : Int))
    ∧ Table.Limit C7tw 1 = Res.ok { C7tw with data := C7tw.data.take (1 : Int).toNat }
    ∧ ((C7tw.data.length : Int) ≤ 5) ∧ Table.Limit C7tw 5 = Res.ok C7tw
    ∧ ((-1 : Int) < 0) ∧ Table.Limit C7tw (-1) = Res.abort :=
  ⟨by decide, by decide,
   claim7_limit.1 C7tw 1 (by decide) (by decide),
   by decide, claim7_limit.2.1 C7tw 5 (by decide),
   by decide, claim7_limit.2.2 C7tw (-1) (by decide)⟩
